import Mathlib

/-!
Verification of the window manager state engine.

The engine keeps an ordered collection of window records together with a
top z-index counter seeded at 100.  The operations `openWindow`,
`closeWindow`, `minimizeWindow`, `maximizeWindow`, `restoreWindow`,
`focusWindow`, `updateWindowPosition` and `updateWindowSize` are embedded
below as pure state transformers; telemetry emission is a side channel
with no influence on the state and is not modelled.
-/

namespace WindowManager

/-- Modelled from the spec: the `WindowState` record type is imported from a
`types` module whose file is not part of the extracted sources; its fields
are the ones the specification's data model lists and the engine code uses:
`id`, `title`, `x`, `y`, `width`, `height`, `zIndex`, `isFocused`,
`isMinimized`, `isMaximized`. -/
structure WindowState where
  id : String
  title : String
  x : Int
  y : Int
  width : Int
  height : Int
  zIndex : Nat
  isFocused : Bool
  isMinimized : Bool
  isMaximized : Bool
deriving DecidableEq, Repr

/-- The argument of `openWindow`: `Omit<WindowState, 'zIndex' | 'isFocused'>`,
i.e. every `WindowState` field except `zIndex` and `isFocused`. -/
structure WindowInit where
  id : String
  title : String
  x : Int
  y : Int
  width : Int
  height : Int
  isMinimized : Bool
  isMaximized : Bool
deriving DecidableEq, Repr

/-- The engine state: the ordered window collection (`useState<WindowState[]>([])`)
and the top z-index counter (`useState(100)`). -/
structure EngineState where
  windows : List WindowState
  topZIndex : Nat
deriving DecidableEq, Repr

/-- Initial state: empty collection, counter seeded at 100. -/
def initialState : EngineState := { windows := [], topZIndex := 100 }

/-- `openWindow`: bump the counter; if a window with the id exists and is
minimized, restore-and-focus it; if it exists and is not minimized, plain
focus; otherwise append a fresh focused window, defocusing all others. -/
def openWindow (w : WindowInit) (s : EngineState) : EngineState :=
  match s.windows.find? (fun v => v.id == w.id) with
  | some existing =>
    if existing.isMinimized then
      { windows := s.windows.map (fun v =>
          if v.id == w.id then
            { v with isMinimized := false, isFocused := true, zIndex := s.topZIndex + 1 }
          else
            { v with isFocused := false }),
        topZIndex := s.topZIndex + 1 }
    else
      { windows := s.windows.map (fun v =>
          if v.id == w.id then
            { v with isFocused := true, zIndex := s.topZIndex + 1 }
          else
            { v with isFocused := false }),
        topZIndex := s.topZIndex + 1 }
  | none =>
    { windows := s.windows.map (fun v => { v with isFocused := false }) ++
        [{ id := w.id, title := w.title, x := w.x, y := w.y,
           width := w.width, height := w.height, zIndex := s.topZIndex + 1,
           isFocused := true, isMinimized := w.isMinimized,
           isMaximized := w.isMaximized }],
      topZIndex := s.topZIndex + 1 }

/-- `closeWindow`: `prev.filter(w => w.id !== id)`; the counter is untouched. -/
def closeWindow (id : String) (s : EngineState) : EngineState :=
  { s with windows := s.windows.filter (fun v => !(v.id == id)) }

/-- `minimizeWindow`: set `isMinimized := true, isFocused := false` on the
matching window, leave the rest alone; the counter is untouched. -/
def minimizeWindow (id : String) (s : EngineState) : EngineState :=
  { s with windows := s.windows.map (fun v =>
      if v.id == id then { v with isMinimized := true, isFocused := false } else v) }

/-- `maximizeWindow`: toggle `isMaximized` on the matching window; the
counter is untouched. -/
def maximizeWindow (id : String) (s : EngineState) : EngineState :=
  { s with windows := s.windows.map (fun v =>
      if v.id == id then { v with isMaximized := !v.isMaximized } else v) }

/-- `restoreWindow`: bump the counter, clear `isMinimized` and focus the
matching window with the new z value, defocus all others. -/
def restoreWindow (id : String) (s : EngineState) : EngineState :=
  { windows := s.windows.map (fun v =>
      if v.id == id then
        { v with isMinimized := false, isFocused := true, zIndex := s.topZIndex + 1 }
      else
        { v with isFocused := false }),
    topZIndex := s.topZIndex + 1 }

/-- `focusWindow`: bump the counter, focus the matching window with the new
z value, defocus all others; `isMinimized` is not touched. -/
def focusWindow (id : String) (s : EngineState) : EngineState :=
  { windows := s.windows.map (fun v =>
      if v.id == id then
        { v with isFocused := true, zIndex := s.topZIndex + 1 }
      else
        { v with isFocused := false }),
    topZIndex := s.topZIndex + 1 }

/-- `updateWindowPosition`: set the position fields on the matching window. -/
def updateWindowPosition (id : String) (x y : Int) (s : EngineState) : EngineState :=
  { s with windows := s.windows.map (fun v =>
      if v.id == id then { v with x := x, y := y } else v) }

/-- `updateWindowSize`: set the dimension fields on the matching window. -/
def updateWindowSize (id : String) (width height : Int) (s : EngineState) : EngineState :=
  { s with windows := s.windows.map (fun v =>
      if v.id == id then { v with width := width, height := height } else v) }

/-- One engine operation, for reasoning about arbitrary call sequences. -/
inductive Op where
  | openW : WindowInit → Op
  | close : String → Op
  | minimize : String → Op
  | maximize : String → Op
  | restore : String → Op
  | focus : String → Op
  | updatePos : String → Int → Int → Op
  | updateSize : String → Int → Int → Op
deriving DecidableEq, Repr

/-- Apply one operation to a state. -/
def applyOp (s : EngineState) : Op → EngineState
  | .openW w => openWindow w s
  | .close id => closeWindow id s
  | .minimize id => minimizeWindow id s
  | .maximize id => maximizeWindow id s
  | .restore id => restoreWindow id s
  | .focus id => focusWindow id s
  | .updatePos id x y => updateWindowPosition id x y s
  | .updateSize id width height => updateWindowSize id width height s

/-- Run a sequence of operations from the initial state. -/
def run (ops : List Op) : EngineState := ops.foldl applyOp initialState

/-- The window init used in the spec's concrete scenarios. -/
def noteInit : WindowInit :=
  { id := "a", title := "Notes", x := 0, y := 0, width := 400, height := 300,
    isMinimized := false, isMaximized := false }

/-- A second window init for multi-window scenarios. -/
def chatInit : WindowInit :=
  { id := "b", title := "Chat", x := 10, y := 10, width := 200, height := 200,
    isMinimized := false, isMaximized := false }

/-! ### Auxiliary notions -/

/-- The ids of a window list, in order. -/
def ids (l : List WindowState) : List String := l.map (fun v => v.id)

/-- The number of focused windows. -/
def focusedCount (l : List WindowState) : Nat := l.countP (fun v => v.isFocused)

/-- Id uniqueness across the collection (spec invariant 3). -/
def NodupIds (s : EngineState) : Prop := (ids s.windows).Nodup

/-- Minimized windows are never focused (spec invariant 2). -/
def MinFocusInv (s : EngineState) : Prop :=
  ∀ v ∈ s.windows, v.isMinimized = true → v.isFocused = false

/-- Every window's z-index is bounded by the counter (spec invariant 4). -/
def ZBound (s : EngineState) : Prop := ∀ v ∈ s.windows, v.zIndex ≤ s.topZIndex

/-! ### Branch lemmas for `openWindow` -/

lemma openWindow_none (w : WindowInit) (s : EngineState)
    (h : s.windows.find? (fun v => v.id == w.id) = none) :
    openWindow w s =
      { windows := s.windows.map (fun v => { v with isFocused := false }) ++
          [{ id := w.id, title := w.title, x := w.x, y := w.y,
             width := w.width, height := w.height, zIndex := s.topZIndex + 1,
             isFocused := true, isMinimized := w.isMinimized,
             isMaximized := w.isMaximized }],
        topZIndex := s.topZIndex + 1 } := by
  unfold openWindow
  rw [h]

lemma openWindow_some_min (w : WindowInit) (s : EngineState) (e : WindowState)
    (h : s.windows.find? (fun v => v.id == w.id) = some e)
    (hm : e.isMinimized = true) :
    openWindow w s =
      { windows := s.windows.map (fun v =>
          if v.id == w.id then
            { v with isMinimized := false, isFocused := true, zIndex := s.topZIndex + 1 }
          else
            { v with isFocused := false }),
        topZIndex := s.topZIndex + 1 } := by
  unfold openWindow
  rw [h]
  simp [hm]

lemma openWindow_some_notmin (w : WindowInit) (s : EngineState) (e : WindowState)
    (h : s.windows.find? (fun v => v.id == w.id) = some e)
    (hm : e.isMinimized = false) :
    openWindow w s =
      { windows := s.windows.map (fun v =>
          if v.id == w.id then
            { v with isFocused := true, zIndex := s.topZIndex + 1 }
          else
            { v with isFocused := false }),
        topZIndex := s.topZIndex + 1 } := by
  unfold openWindow
  rw [h]
  simp [hm]

/-! ### Ids are stable under every map-shaped update -/

lemma ids_map_of (l : List WindowState) (f : WindowState → WindowState)
    (hf : ∀ v, (f v).id = v.id) : ids (l.map f) = ids l := by
  unfold ids
  rw [List.map_map]
  exact List.map_congr_left (fun a _ => hf a)

lemma ids_append (l₁ l₂ : List WindowState) : ids (l₁ ++ l₂) = ids l₁ ++ ids l₂ := by
  unfold ids
  rw [List.map_append]

lemma ids_singleton (v : WindowState) : ids [v] = [v.id] := rfl

lemma mem_ids (l : List WindowState) (a : String) : a ∈ ids l ↔ ∃ v ∈ l, v.id = a := by
  unfold ids
  simp

/-! ### At most one window matches an id when ids are unique -/

lemma countP_matching_le_one (l : List WindowState) (a : String)
    (h : (ids l).Nodup) : l.countP (fun v => v.id == a) ≤ 1 := by
  induction l with
  | nil => simp
  | cons v t ih =>
    have hc : ids (v :: t) = v.id :: ids t := rfl
    rw [hc] at h
    rcases List.nodup_cons.mp h with ⟨hne, ht⟩
    rw [List.countP_cons]
    by_cases hv : (v.id == a) = true
    · have hva : v.id = a := eq_of_beq hv
      have h0 : t.countP (fun u => u.id == a) = 0 := by
        apply List.countP_eq_zero.mpr
        intro u hu hua
        have hua' : u.id = a := eq_of_beq hua
        exact hne ((mem_ids t v.id).mpr ⟨u, hu, by rw [hua', hva]⟩)
      simp [hv, h0]
    · have hb : (v.id == a) = false := eq_false_of_ne_true hv
      have := ih ht
      simp only [hb]
      simpa using this

lemma matching_unique (l : List WindowState) (h : (ids l).Nodup)
    {v e : WindowState} (hv : v ∈ l) (he : e ∈ l) (hid : v.id = e.id) : v = e :=
  List.inj_on_of_nodup_map h hv he hid

/-! ### Id uniqueness is preserved by every operation -/

lemma nodup_ids_map (l : List WindowState) (f : WindowState → WindowState)
    (hf : ∀ v, (f v).id = v.id) (h : (ids l).Nodup) : (ids (l.map f)).Nodup := by
  rw [ids_map_of l f hf]
  exact h

lemma nodupIds_step (op : Op) (s : EngineState) (h : NodupIds s) :
    NodupIds (applyOp s op) := by
  cases op with
  | openW w =>
    show NodupIds (openWindow w s)
    rcases hf : s.windows.find? (fun v => v.id == w.id) with _ | e
    · rw [openWindow_none w s hf]
      unfold NodupIds at *
      rw [ids_append, ids_singleton]
      rw [ids_map_of s.windows (fun v => { v with isFocused := false }) (fun v => rfl)]
      rw [List.nodup_append]
      refine ⟨h, List.nodup_singleton _, ?_⟩
      intro a ha ha'
      have haw : a = w.id := List.mem_singleton.mp ha'
      subst haw
      rcases (mem_ids _ _).mp ha with ⟨v, hv, hva⟩
      have hnone := List.find?_eq_none.mp hf v hv
      rw [hva] at hnone
      simp at hnone
    · cases hm : e.isMinimized with
      | true =>
        rw [openWindow_some_min w s e hf hm]
        exact nodup_ids_map _ _ (fun v => by split <;> rfl) h
      | false =>
        rw [openWindow_some_notmin w s e hf hm]
        exact nodup_ids_map _ _ (fun v => by split <;> rfl) h
  | close id =>
    show NodupIds (closeWindow id s)
    unfold NodupIds ids closeWindow at *
    exact List.Nodup.sublist (List.Sublist.map _ (List.filter_sublist s.windows)) h
  | minimize id =>
    show NodupIds (minimizeWindow id s)
    exact nodup_ids_map _ _ (fun v => by split <;> rfl) h
  | maximize id =>
    show NodupIds (maximizeWindow id s)
    exact nodup_ids_map _ _ (fun v => by split <;> rfl) h
  | restore id =>
    show NodupIds (restoreWindow id s)
    exact nodup_ids_map _ _ (fun v => by split <;> rfl) h
  | focus id =>
    show NodupIds (focusWindow id s)
    exact nodup_ids_map _ _ (fun v => by split <;> rfl) h
  | updatePos id x y =>
    show NodupIds (updateWindowPosition id x y s)
    exact nodup_ids_map _ _ (fun v => by split <;> rfl) h
  | updateSize id width height =>
    show NodupIds (updateWindowSize id width height s)
    exact nodup_ids_map _ _ (fun v => by split <;> rfl) h

/-! ### Focused-window counting -/

lemma focusedCount_map (l : List WindowState) (f : WindowState → WindowState) :
    focusedCount (l.map f) = l.countP (fun v => (f v).isFocused) := by
  unfold focusedCount
  rw [List.countP_map]
  rfl

lemma countP_eq_matching (l : List WindowState) (a : String)
    (f : WindowState → WindowState) (hf : ∀ v, (f v).isFocused = (v.id == a)) :
    l.countP (fun v => (f v).isFocused) = l.countP (fun v => v.id == a) :=
  List.countP_congr (fun v _ => by rw [hf v])

lemma countP_focused_of_preserved (l : List WindowState)
    (f : WindowState → WindowState) (hf : ∀ v, (f v).isFocused = v.isFocused) :
    l.countP (fun v => (f v).isFocused) = l.countP (fun v => v.isFocused) :=
  List.countP_congr (fun v _ => by rw [hf v])

lemma focusedCount_step (op : Op) (s : EngineState) (h1 : NodupIds s)
    (h2 : focusedCount s.windows ≤ 1) : focusedCount (applyOp s op).windows ≤ 1 := by
  cases op with
  | openW w =>
    show focusedCount (openWindow w s).windows ≤ 1
    rcases hf : s.windows.find? (fun v => v.id == w.id) with _ | e
    · rw [openWindow_none w s hf]
      dsimp only
      unfold focusedCount
      rw [List.countP_append, List.countP_map]
      have h0 : List.countP
          ((fun v => v.isFocused) ∘ (fun v => ({ v with isFocused := false } : WindowState)))
          s.windows = 0 := by
        apply List.countP_eq_zero.mpr
        intro a _
        simp
      rw [h0]
      simp [List.countP_cons]
    · cases hm : e.isMinimized with
      | true =>
        rw [openWindow_some_min w s e hf hm]
        dsimp only
        rw [focusedCount_map,
          countP_eq_matching s.windows w.id _ (fun v => by split <;> simp_all)]
        exact countP_matching_le_one s.windows w.id h1
      | false =>
        rw [openWindow_some_notmin w s e hf hm]
        dsimp only
        rw [focusedCount_map,
          countP_eq_matching s.windows w.id _ (fun v => by split <;> simp_all)]
        exact countP_matching_le_one s.windows w.id h1
  | close id =>
    show focusedCount (closeWindow id s).windows ≤ 1
    unfold closeWindow focusedCount at *
    exact le_trans (List.Sublist.countP_le _ (List.filter_sublist s.windows)) h2
  | minimize id =>
    show focusedCount (minimizeWindow id s).windows ≤ 1
    dsimp only [minimizeWindow]
    rw [focusedCount_map]
    unfold focusedCount at h2
    refine le_trans (List.countP_mono_left ?_) h2
    intro v _ hv
    by_cases h : (v.id == id) = true
    · rw [if_pos h] at hv
      exact absurd hv (by simp)
    · rw [if_neg h] at hv
      exact hv
  | maximize id =>
    show focusedCount (maximizeWindow id s).windows ≤ 1
    dsimp only [maximizeWindow]
    rw [focusedCount_map]
    unfold focusedCount at h2
    rw [countP_focused_of_preserved s.windows _ (fun v => by split <;> rfl)]
    exact h2
  | restore id =>
    show focusedCount (restoreWindow id s).windows ≤ 1
    dsimp only [restoreWindow]
    rw [focusedCount_map,
      countP_eq_matching s.windows id _ (fun v => by split <;> simp_all)]
    exact countP_matching_le_one s.windows id h1
  | focus id =>
    show focusedCount (focusWindow id s).windows ≤ 1
    dsimp only [focusWindow]
    rw [focusedCount_map,
      countP_eq_matching s.windows id _ (fun v => by split <;> simp_all)]
    exact countP_matching_le_one s.windows id h1
  | updatePos id x y =>
    show focusedCount (updateWindowPosition id x y s).windows ≤ 1
    dsimp only [updateWindowPosition]
    rw [focusedCount_map]
    unfold focusedCount at h2
    rw [countP_focused_of_preserved s.windows _ (fun v => by split <;> rfl)]
    exact h2
  | updateSize id width height =>
    show focusedCount (updateWindowSize id width height s).windows ≤ 1
    dsimp only [updateWindowSize]
    rw [focusedCount_map]
    unfold focusedCount at h2
    rw [countP_focused_of_preserved s.windows _ (fun v => by split <;> rfl)]
    exact h2

/-- Combined inductive invariant: ids unique and at most one focused window. -/
def Inv1 (s : EngineState) : Prop := NodupIds s ∧ focusedCount s.windows ≤ 1

lemma inv1_step (op : Op) (s : EngineState) (h : Inv1 s) : Inv1 (applyOp s op) :=
  ⟨nodupIds_step op s h.1, focusedCount_step op s h.1 h.2⟩

lemma inv1_foldl (ops : List Op) : ∀ s, Inv1 s → Inv1 (ops.foldl applyOp s) := by
  induction ops with
  | nil => exact fun s h => h
  | cons op rest ih =>
    intro s h
    rw [List.foldl_cons]
    exact ih _ (inv1_step op s h)

lemma inv1_initial : Inv1 initialState :=
  ⟨List.nodup_nil, by simp [focusedCount, initialState]⟩

/-- Id uniqueness (spec invariant 3) holds in every reachable state. -/
lemma nodupIds_run (ops : List Op) : NodupIds (run ops) :=
  (inv1_foldl ops initialState inv1_initial).1

/-- C1: Focus exclusivity — starting from the initial state (empty window
collection, counter seeded at 100), after every finite sequence of the
engine operations at most one window in the collection has `isFocused = true`. -/
theorem focus_exclusivity (ops : List Op) :
    (run ops).windows.countP (fun v => v.isFocused) ≤ 1 :=
  (inv1_foldl ops initialState inv1_initial).2

/-! ### Minimized windows and focus -/

/-- Guard on a single operation: `focus` is only applied to ids whose window
(if any) is not minimized, and a fresh `openWindow` init does not carry
`isMinimized = true`. -/
def stepSafe (s : EngineState) : Op → Bool
  | .openW w => !w.isMinimized || s.windows.any (fun v => v.id == w.id)
  | .focus id => s.windows.all (fun v => !(v.id == id) || !v.isMinimized)
  | _ => true

/-- A trace is safe when every step is, in the state it runs in. -/
def safeTrace : EngineState → List Op → Bool
  | _, [] => true
  | s, op :: rest => stepSafe s op && safeTrace (applyOp s op) rest

lemma minFocus_step (op : Op) (s : EngineState) (h1 : NodupIds s) (h2 : MinFocusInv s)
    (hs : stepSafe s op = true) : MinFocusInv (applyOp s op) := by
  cases op with
  | openW w =>
    show MinFocusInv (openWindow w s)
    rcases hf : s.windows.find? (fun v => v.id == w.id) with _ | e
    · have hany : s.windows.any (fun v => v.id == w.id) = false := by
        rw [List.any_eq_false]
        exact fun v hv => List.find?_eq_none.mp hf v hv
      have hwm : w.isMinimized = false := by
        rw [stepSafe, hany] at hs
        simpa using hs
      rw [openWindow_none w s hf]
      intro u hu humin
      rcases List.mem_append.mp hu with hu1 | hu2
      · rcases List.mem_map.mp hu1 with ⟨v, _, rfl⟩
        rfl
      · have hu3 := List.mem_singleton.mp hu2
        subst hu3
        exact absurd humin (by simp [hwm])
    · cases hmB : e.isMinimized with
      | true =>
        rw [openWindow_some_min w s e hf hmB]
        intro u hu humin
        rcases List.mem_map.mp hu with ⟨v, hv, rfl⟩
        by_cases hvid : (v.id == w.id) = true
        · rw [if_pos hvid] at humin
          exact absurd humin (by simp)
        · rw [if_neg hvid]
      | false =>
        rw [openWindow_some_notmin w s e hf hmB]
        intro u hu humin
        rcases List.mem_map.mp hu with ⟨v, hv, rfl⟩
        by_cases hvid : (v.id == w.id) = true
        · rw [if_pos hvid] at humin
          have he : e ∈ s.windows := List.mem_of_find?_eq_some hf
          have heid : e.id = w.id := by simpa using List.find?_some hf
          have hveq : v = e := matching_unique s.windows h1 hv he (by rw [eq_of_beq hvid, heid])
          have hvm : v.isMinimized = true := humin
          rw [hveq, hmB] at hvm
          exact absurd hvm (by simp)
        · rw [if_neg hvid]
  | close id =>
    show MinFocusInv (closeWindow id s)
    intro u hu
    exact h2 u (List.mem_of_mem_filter hu)
  | minimize id =>
    show MinFocusInv (minimizeWindow id s)
    intro u hu humin
    rcases List.mem_map.mp hu with ⟨v, hv, rfl⟩
    by_cases hvid : (v.id == id) = true
    · rw [if_pos hvid]
    · rw [if_neg hvid] at humin ⊢
      exact h2 v hv humin
  | maximize id =>
    show MinFocusInv (maximizeWindow id s)
    intro u hu humin
    rcases List.mem_map.mp hu with ⟨v, hv, rfl⟩
    by_cases hvid : (v.id == id) = true
    · rw [if_pos hvid] at humin ⊢
      exact h2 v hv humin
    · rw [if_neg hvid] at humin ⊢
      exact h2 v hv humin
  | restore id =>
    show MinFocusInv (restoreWindow id s)
    intro u hu humin
    rcases List.mem_map.mp hu with ⟨v, hv, rfl⟩
    by_cases hvid : (v.id == id) = true
    · rw [if_pos hvid] at humin
      exact absurd humin (by simp)
    · rw [if_neg hvid]
  | focus id =>
    show MinFocusInv (focusWindow id s)
    intro u hu humin
    rcases List.mem_map.mp hu with ⟨v, hv, rfl⟩
    by_cases hvid : (v.id == id) = true
    · have hall := List.all_eq_true.mp hs v hv
      rw [hvid] at hall
      have hvm : v.isMinimized = false := by simpa using hall
      rw [if_pos hvid] at humin
      have hvm' : v.isMinimized = true := humin
      rw [hvm] at hvm'
      exact absurd hvm' (by simp)
    · rw [if_neg hvid]
  | updatePos id x y =>
    show MinFocusInv (updateWindowPosition id x y s)
    intro u hu humin
    rcases List.mem_map.mp hu with ⟨v, hv, rfl⟩
    by_cases hvid : (v.id == id) = true
    · rw [if_pos hvid] at humin ⊢
      exact h2 v hv humin
    · rw [if_neg hvid] at humin ⊢
      exact h2 v hv humin
  | updateSize id width height =>
    show MinFocusInv (updateWindowSize id width height s)
    intro u hu humin
    rcases List.mem_map.mp hu with ⟨v, hv, rfl⟩
    by_cases hvid : (v.id == id) = true
    · rw [if_pos hvid] at humin ⊢
      exact h2 v hv humin
    · rw [if_neg hvid] at humin ⊢
      exact h2 v hv humin

lemma minFocus_foldl (ops : List Op) : ∀ s, NodupIds s → MinFocusInv s →
    safeTrace s ops = true → MinFocusInv (ops.foldl applyOp s) := by
  induction ops with
  | nil => exact fun s _ h _ => h
  | cons op rest ih =>
    intro s h1 h2 hsafe
    rw [safeTrace, Bool.and_eq_true] at hsafe
    rw [List.foldl_cons]
    exact ih _ (nodupIds_step op s h1) (minFocus_step op s h1 h2 hsafe.1) hsafe.2

/-- The sequence open "a", minimize "a", focus "a". -/
def badFocusTrace : List Op := [Op.openW noteInit, Op.minimize "a", Op.focus "a"]

/-- C2 counterexample: after open "a", minimize "a", focus "a" the window
"a" has `isMinimized = true` and `isFocused = true` simultaneously —
`focusWindow` does not clear `isMinimized`, so focusing a minimized window
violates the minimized/focus exclusion the claim states. -/
theorem minimized_and_focused_reachable :
    ¬ (∀ v ∈ (run badFocusTrace).windows, v.isMinimized = true → v.isFocused = false) := by
  decide

/-- C2 (amended): minimized/focus exclusion holds over every trace in which
`focus` is only ever applied to an id whose window is absent or not
minimized, and every `openWindow` whose id is fresh carries
`isMinimized = false` in its init. -/
theorem minimized_never_focused_of_safe (ops : List Op)
    (h : safeTrace initialState ops = true) :
    (run ops).windows.all (fun v => !v.isMinimized || !v.isFocused) = true := by
  rw [List.all_eq_true]
  intro v hv
  have hmf := minFocus_foldl ops initialState List.nodup_nil
    (fun u hu => absurd hu (List.not_mem_nil u)) h v hv
  cases hvm : v.isMinimized with
  | false => simp
  | true => simp [hmf hvm]

/-- A safe trace exercising minimize, reopen and restore. -/
def safeDemoTrace : List Op :=
  [Op.openW noteInit, Op.minimize "a", Op.openW noteInit,
   Op.minimize "a", Op.restore "a", Op.focus "a"]

/-- Witness for the amended C2 theorem on a concrete safe trace. -/
theorem minimized_never_focused_witness :
    safeTrace initialState safeDemoTrace = true ∧
    (run safeDemoTrace).windows.all (fun v => !v.isMinimized || !v.isFocused) = true :=
  ⟨by decide, minimized_never_focused_of_safe safeDemoTrace (by decide)⟩

/-! ### Behaviour on an absent id -/

lemma map_eq_self_of (l : List WindowState) (f : WindowState → WindowState)
    (hf : ∀ v ∈ l, f v = v) : l.map f = l := by
  induction l with
  | nil => rfl
  | cons v t ih =>
    rw [List.map_cons, hf v (List.mem_cons_self v t),
      ih (fun u hu => hf u (List.mem_cons_of_mem v hu))]

/-- C3 counterexample: in the state reached by opening "a", the id "b" is
absent, yet `focusWindow "b"` changes the state — it bumps the counter and
defocuses "a" — so focus on an absent id is not a no-op. -/
theorem absent_focus_not_noop :
    ((run [Op.openW noteInit]).windows.all (fun v => !(v.id == "b"))) = true ∧
    focusWindow "b" (run [Op.openW noteInit]) ≠ run [Op.openW noteInit] := by
  constructor
  · decide
  · decide

/-- C3 (amended): on an id absent from the collection, close, minimize,
maximize, updateWindowPosition and updateWindowSize leave the whole state
unchanged, while focus and restore still increment the counter by exactly 1
and force `isFocused := false` on every window (leaving all other fields
unchanged); no operation fails. -/
theorem absent_id_noop (s : EngineState) (id : String) (x y width height : Int)
    (h : s.windows.all (fun v => !(v.id == id)) = true) :
    closeWindow id s = s ∧
    minimizeWindow id s = s ∧
    maximizeWindow id s = s ∧
    updateWindowPosition id x y s = s ∧
    updateWindowSize id width height s = s ∧
    focusWindow id s =
      { windows := s.windows.map (fun v => { v with isFocused := false }),
        topZIndex := s.topZIndex + 1 } ∧
    restoreWindow id s =
      { windows := s.windows.map (fun v => { v with isFocused := false }),
        topZIndex := s.topZIndex + 1 } := by
  have hno : ∀ v ∈ s.windows, (v.id == id) = false := by
    intro v hv
    simpa using List.all_eq_true.mp h v hv
  refine ⟨?_, ?_, ?_, ?_, ?_, ?_, ?_⟩
  · unfold closeWindow
    rw [List.filter_eq_self.mpr (fun v hv => by rw [hno v hv]; rfl)]
  · unfold minimizeWindow
    rw [map_eq_self_of s.windows _ (fun v hv => by rw [if_neg (by simp [hno v hv])])]
  · unfold maximizeWindow
    rw [map_eq_self_of s.windows _ (fun v hv => by rw [if_neg (by simp [hno v hv])])]
  · unfold updateWindowPosition
    rw [map_eq_self_of s.windows _ (fun v hv => by rw [if_neg (by simp [hno v hv])])]
  · unfold updateWindowSize
    rw [map_eq_self_of s.windows _ (fun v hv => by rw [if_neg (by simp [hno v hv])])]
  · unfold focusWindow
    rw [List.map_congr_left (fun v hv => by rw [if_neg (by simp [hno v hv])])]
  · unfold restoreWindow
    rw [List.map_congr_left (fun v hv => by rw [if_neg (by simp [hno v hv])])]

/-- Witness for the amended C3 theorem: minimizing the absent id "b" in the
state reached by opening "a" leaves the state unchanged. -/
theorem absent_id_noop_witness :
    minimizeWindow "b" (run [Op.openW noteInit]) = run [Op.openW noteInit] :=
  (absent_id_noop (run [Op.openW noteInit]) "b" 0 0 0 0 (by decide)).2.1

/-! ### Z-order allocation -/

lemma openWindow_topZ (w : WindowInit) (s : EngineState) :
    (openWindow w s).topZIndex = s.topZIndex + 1 := by
  unfold openWindow
  split
  · split <;> rfl
  · rfl

lemma zBound_map_preserve (s : EngineState) (f : WindowState → WindowState)
    (hz : ∀ v, (f v).zIndex = v.zIndex) (h : ZBound s) :
    ∀ u ∈ s.windows.map f, u.zIndex ≤ s.topZIndex := by
  intro u hu
  rcases List.mem_map.mp hu with ⟨v, hv, rfl⟩
  rw [hz v]
  exact h v hv

lemma zBound_step (op : Op) (s : EngineState) (h : ZBound s) : ZBound (applyOp s op) := by
  cases op with
  | openW w =>
    show ZBound (openWindow w s)
    rcases hf : s.windows.find? (fun v => v.id == w.id) with _ | e
    · rw [openWindow_none w s hf]
      intro u hu
      rcases List.mem_append.mp hu with h1 | h2
      · rcases List.mem_map.mp h1 with ⟨v, hv, rfl⟩
        exact le_trans (h v hv) (Nat.le_succ _)
      · rw [List.mem_singleton.mp h2]
    · cases hm : e.isMinimized with
      | true =>
        rw [openWindow_some_min w s e hf hm]
        intro u hu
        rcases List.mem_map.mp hu with ⟨v, hv, rfl⟩
        by_cases hvid : (v.id == w.id) = true
        · rw [if_pos hvid]
        · rw [if_neg hvid]
          exact le_trans (h v hv) (Nat.le_succ _)
      | false =>
        rw [openWindow_some_notmin w s e hf hm]
        intro u hu
        rcases List.mem_map.mp hu with ⟨v, hv, rfl⟩
        by_cases hvid : (v.id == w.id) = true
        · rw [if_pos hvid]
        · rw [if_neg hvid]
          exact le_trans (h v hv) (Nat.le_succ _)
  | close id =>
    show ZBound (closeWindow id s)
    intro u hu
    exact h u (List.mem_of_mem_filter hu)
  | minimize id =>
    show ZBound (minimizeWindow id s)
    intro u hu
    exact zBound_map_preserve s _ (fun v => by split <;> rfl) h u hu
  | maximize id =>
    show ZBound (maximizeWindow id s)
    intro u hu
    exact zBound_map_preserve s _ (fun v => by split <;> rfl) h u hu
  | restore id =>
    show ZBound (restoreWindow id s)
    intro u hu
    rcases List.mem_map.mp hu with ⟨v, hv, rfl⟩
    by_cases hvid : (v.id == id) = true
    · rw [if_pos hvid]
      exact Nat.le_refl _
    · rw [if_neg hvid]
      exact le_trans (h v hv) (Nat.le_succ _)
  | focus id =>
    show ZBound (focusWindow id s)
    intro u hu
    rcases List.mem_map.mp hu with ⟨v, hv, rfl⟩
    by_cases hvid : (v.id == id) = true
    · rw [if_pos hvid]
      exact Nat.le_refl _
    · rw [if_neg hvid]
      exact le_trans (h v hv) (Nat.le_succ _)
  | updatePos id x y =>
    show ZBound (updateWindowPosition id x y s)
    intro u hu
    exact zBound_map_preserve s _ (fun v => by split <;> rfl) h u hu
  | updateSize id width height =>
    show ZBound (updateWindowSize id width height s)
    intro u hu
    exact zBound_map_preserve s _ (fun v => by split <;> rfl) h u hu

lemma zBound_foldl (ops : List Op) : ∀ s, ZBound s → ZBound (ops.foldl applyOp s) := by
  induction ops with
  | nil => exact fun s h => h
  | cons op rest ih =>
    intro s h
    rw [List.foldl_cons]
    exact ih _ (zBound_step op s h)

lemma zBound_run (ops : List Op) : ZBound (run ops) :=
  zBound_foldl ops initialState (fun u hu => absurd hu (List.not_mem_nil u))

/-- C4: Z-order monotonic allocation — in every reachable state the counter
bounds every window's zIndex; every single step leaves the counter equal or
larger; open, restore and focus increment it by exactly 1 and stamp the new
value as the zIndex of the window with the targeted id; close, minimize,
maximize, updateWindowPosition and updateWindowSize leave it unchanged. -/
theorem zorder_allocation (ops : List Op) (s : EngineState) (w : WindowInit)
    (id : String) (x y width height : Int) (op : Op) :
    ((run ops).windows.all (fun v => decide (v.zIndex ≤ (run ops).topZIndex)) = true) ∧
    s.topZIndex ≤ (applyOp s op).topZIndex ∧
    (openWindow w s).topZIndex = s.topZIndex + 1 ∧
    (restoreWindow id s).topZIndex = s.topZIndex + 1 ∧
    (focusWindow id s).topZIndex = s.topZIndex + 1 ∧
    (closeWindow id s).topZIndex = s.topZIndex ∧
    (minimizeWindow id s).topZIndex = s.topZIndex ∧
    (maximizeWindow id s).topZIndex = s.topZIndex ∧
    (updateWindowPosition id x y s).topZIndex = s.topZIndex ∧
    (updateWindowSize id width height s).topZIndex = s.topZIndex ∧
    ((openWindow w s).windows.all
      (fun v => !(v.id == w.id) || decide (v.zIndex = s.topZIndex + 1)) = true) ∧
    ((restoreWindow id s).windows.all
      (fun v => !(v.id == id) || decide (v.zIndex = s.topZIndex + 1)) = true) ∧
    ((focusWindow id s).windows.all
      (fun v => !(v.id == id) || decide (v.zIndex = s.topZIndex + 1)) = true) := by
  refine ⟨?_, ?_, openWindow_topZ w s, rfl, rfl, rfl, rfl, rfl, rfl, rfl, ?_, ?_, ?_⟩
  · rw [List.all_eq_true]
    intro v hv
    exact decide_eq_true (zBound_run ops v hv)
  · cases op with
    | openW w' =>
      show s.topZIndex ≤ (openWindow w' s).topZIndex
      rw [openWindow_topZ w' s]
      exact Nat.le_succ _
    | close id' => exact Nat.le_refl _
    | minimize id' => exact Nat.le_refl _
    | maximize id' => exact Nat.le_refl _
    | restore id' => exact Nat.le_succ _
    | focus id' => exact Nat.le_succ _
    | updatePos id' x' y' => exact Nat.le_refl _
    | updateSize id' w' h' => exact Nat.le_refl _
  · rw [List.all_eq_true]
    intro u hu
    rcases hf : s.windows.find? (fun v => v.id == w.id) with _ | e
    · rw [openWindow_none w s hf] at hu
      rcases List.mem_append.mp hu with h1 | h2
      · rcases List.mem_map.mp h1 with ⟨v, hv, rfl⟩
        have hne : (v.id == w.id) = false := by
          simpa using List.find?_eq_none.mp hf v hv
        simp [hne]
      · rw [List.mem_singleton.mp h2]
        simp
    · cases hm : e.isMinimized with
      | true =>
        rw [openWindow_some_min w s e hf hm] at hu
        rcases List.mem_map.mp hu with ⟨v, hv, rfl⟩
        by_cases hvid : (v.id == w.id) = true
        · rw [if_pos hvid]
          simp
        · rw [if_neg hvid]
          simp [eq_false_of_ne_true hvid]
      | false =>
        rw [openWindow_some_notmin w s e hf hm] at hu
        rcases List.mem_map.mp hu with ⟨v, hv, rfl⟩
        by_cases hvid : (v.id == w.id) = true
        · rw [if_pos hvid]
          simp
        · rw [if_neg hvid]
          simp [eq_false_of_ne_true hvid]
  · rw [List.all_eq_true]
    intro u hu
    rcases List.mem_map.mp hu with ⟨v, hv, rfl⟩
    by_cases hvid : (v.id == id) = true
    · rw [if_pos hvid]
      simp
    · rw [if_neg hvid]
      simp [eq_false_of_ne_true hvid]
  · rw [List.all_eq_true]
    intro u hu
    rcases List.mem_map.mp hu with ⟨v, hv, rfl⟩
    by_cases hvid : (v.id == id) = true
    · rw [if_pos hvid]
      simp
    · rw [if_neg hvid]
      simp [eq_false_of_ne_true hvid]

/-! ### Opening a fresh id -/

/-- C5: opening a fresh id appends exactly one new window carrying the init's
fields, `zIndex` equal to the incremented counter, `isFocused = true`, and
forces `isFocused := false` on every previously existing window; the counter
becomes its old value plus 1. -/
theorem open_fresh (w : WindowInit) (s : EngineState)
    (h : s.windows.all (fun v => !(v.id == w.id)) = true) :
    openWindow w s =
      { windows := s.windows.map (fun v => { v with isFocused := false }) ++
          [{ id := w.id, title := w.title, x := w.x, y := w.y,
             width := w.width, height := w.height, zIndex := s.topZIndex + 1,
             isFocused := true, isMinimized := w.isMinimized,
             isMaximized := w.isMaximized }],
        topZIndex := s.topZIndex + 1 } := by
  apply openWindow_none
  rw [List.find?_eq_none]
  intro v hv
  simpa using List.all_eq_true.mp h v hv

/-- Witness for C5: Scenario A — `open({id:"a", title:"Notes", x:0, y:0,
width:400, height:300})` on the empty initial state (counter 100) yields a
collection with exactly one window "a", focused, with `zIndex = 101`. -/
theorem open_fresh_witness :
    (initialState.windows.all (fun v => !(v.id == noteInit.id)) = true) ∧
    openWindow noteInit initialState =
      { windows := [{ id := "a", title := "Notes", x := 0, y := 0, width := 400,
                      height := 300, zIndex := 101, isFocused := true,
                      isMinimized := false, isMaximized := false }],
        topZIndex := 101 } :=
  ⟨rfl, open_fresh noteInit initialState rfl⟩

/-! ### Opening an existing id -/

/-- C6: opening an id that is already present keeps the collection size,
rewrites the stored record in place — preserving its `title`, `x`, `y`,
`width`, `height` (the fields of the open argument are ignored) — sets it
focused with the new counter value as `zIndex`, clears `isMinimized`, and
defocuses every other window. -/
theorem open_existing (w : WindowInit) (s : EngineState)
    (hn : (ids s.windows).Nodup)
    (he : s.windows.any (fun v => v.id == w.id) = true) :
    (openWindow w s).windows.length = s.windows.length ∧
    (openWindow w s).windows = s.windows.map (fun v =>
      if v.id == w.id then
        { v with isMinimized := false, isFocused := true, zIndex := s.topZIndex + 1 }
      else
        { v with isFocused := false }) ∧
    (openWindow w s).topZIndex = s.topZIndex + 1 := by
  rcases Option.isSome_iff_exists.mp
    (List.find?_isSome.mpr (List.any_eq_true.mp he)) with ⟨e, hf⟩
  have he' : e ∈ s.windows := List.mem_of_find?_eq_some hf
  have heid : e.id = w.id := by simpa using List.find?_some hf
  cases hm : e.isMinimized with
  | true =>
    rw [openWindow_some_min w s e hf hm]
    exact ⟨by simp, rfl, rfl⟩
  | false =>
    rw [openWindow_some_notmin w s e hf hm]
    refine ⟨by simp, ?_, rfl⟩
    apply List.map_congr_left
    intro v hv
    by_cases hvid : (v.id == w.id) = true
    · rw [if_pos hvid, if_pos hvid]
      have hveq : v = e := matching_unique s.windows hn hv he'
        (by rw [eq_of_beq hvid, heid])
      rw [hveq, ← hm]
    · rw [if_neg hvid, if_neg hvid]

/-- Witness for C6: re-opening "a" when "a" is already the only open window
does not change the collection size. -/
theorem open_existing_witness :
    (openWindow noteInit (run [Op.openW noteInit])).windows.length =
      (run [Op.openW noteInit]).windows.length :=
  (open_existing noteInit (run [Op.openW noteInit]) (by decide) (by decide)).1

/-! ### Closing -/

/-- C7: close removes exactly the windows with the matching id (a filter that
keeps every other record bit-for-bit unchanged and keeps the counter),
a second close with the same id changes nothing, and close on an absent id
leaves the state unchanged. -/
theorem close_removal_idempotent (id : String) (s : EngineState) :
    closeWindow id (closeWindow id s) = closeWindow id s ∧
    (closeWindow id s).windows = s.windows.filter (fun v => !(v.id == id)) ∧
    (closeWindow id s).topZIndex = s.topZIndex ∧
    (s.windows.all (fun v => !(v.id == id)) = true → closeWindow id s = s) := by
  refine ⟨?_, rfl, rfl, ?_⟩
  · unfold closeWindow
    dsimp only
    rw [List.filter_filter]
    simp [Bool.and_self]
  · intro h
    unfold closeWindow
    rw [List.filter_eq_self.mpr (fun v hv => List.all_eq_true.mp h v hv)]

/-- Witness for C7: closing the absent id "b" after opening "a" leaves the
state unchanged. -/
theorem close_removal_idempotent_witness :
    closeWindow "b" (run [Op.openW noteInit]) = run [Op.openW noteInit] :=
  (close_removal_idempotent "b" (run [Op.openW noteInit])).2.2.2 (by decide)

/-! ### Maximizing -/

/-- C8: maximize toggles `isMaximized` on the matching window and changes
nothing else — no other field of that window, no other window, and not the
counter — and applying it twice restores the state exactly. -/
theorem maximize_toggle (id : String) (s : EngineState) :
    maximizeWindow id (maximizeWindow id s) = s ∧
    (maximizeWindow id s).windows = s.windows.map (fun v =>
      if v.id == id then { v with isMaximized := !v.isMaximized } else v) ∧
    (maximizeWindow id s).topZIndex = s.topZIndex := by
  refine ⟨?_, rfl, rfl⟩
  unfold maximizeWindow
  dsimp only
  rw [List.map_map]
  rw [map_eq_self_of s.windows _ (fun v _ => by
    rcases v with ⟨vid, vtitle, vx, vy, vw, vh, vz, vf, vmin, vmax⟩
    by_cases hvid : (vid == id) = true
    · simp [Function.comp, hvid]
    · simp [Function.comp, hvid])]

/-! ### Minimizing -/

/-- C9 counterexample: after open "a", minimize "a", focus "a", the window
"a" is already minimized, yet `minimizeWindow "a"` changes the state again —
it clears the `isFocused` flag that the focus call had set — so minimize is
not a state no-op on an already-minimized window. -/
theorem minimize_already_minimized_not_noop :
    ((run badFocusTrace).windows.any (fun v => v.id == "a" && v.isMinimized)) = true ∧
    minimizeWindow "a" (run badFocusTrace) ≠ run badFocusTrace := by
  constructor
  · decide
  · decide

/-- C9 (amended): minimize sets `isMinimized := true, isFocused := false` on
the matching window and touches nothing else — no other window and not the
counter; it is a state no-op when the id is absent or the matching window is
already minimized AND not focused (an already-minimized focused window,
reachable by focusing a minimized window, is still modified: its
`isFocused` is cleared). -/
theorem minimize_frame (id : String) (s : EngineState) :
    (minimizeWindow id s).topZIndex = s.topZIndex ∧
    (minimizeWindow id s).windows = s.windows.map (fun v =>
      if v.id == id then { v with isMinimized := true, isFocused := false } else v) ∧
    (s.windows.all (fun v => !(v.id == id) || (v.isMinimized && !v.isFocused)) = true →
      minimizeWindow id s = s) := by
  refine ⟨rfl, rfl, ?_⟩
  intro h
  have hid : ∀ v ∈ s.windows,
      (if v.id == id then { v with isMinimized := true, isFocused := false } else v) = v := by
    intro v hv
    have hval := List.all_eq_true.mp h v hv
    by_cases hvid : (v.id == id) = true
    · have h2 : v.isMinimized = true ∧ v.isFocused = false := by
        rw [hvid] at hval
        simpa using hval
      rw [if_pos hvid, ← h2.1, ← h2.2]
    · rw [if_neg hvid]
  unfold minimizeWindow
  rw [map_eq_self_of s.windows _ hid]

/-- Witness for the amended C9 theorem: the second of two consecutive
minimize "a" calls is a state no-op. -/
theorem minimize_frame_witness :
    minimizeWindow "a" (run [Op.openW noteInit, Op.minimize "a"]) =
      run [Op.openW noteInit, Op.minimize "a"] :=
  (minimize_frame "a" (run [Op.openW noteInit, Op.minimize "a"])).2.2 (by decide)

/-! ### Insertion order -/

lemma ids_filter_ne (l : List WindowState) (id : String) :
    ids (l.filter (fun v => !(v.id == id))) = (ids l).filter (fun a => !(a == id)) := by
  induction l with
  | nil => rfl
  | cons v t ih =>
    unfold ids at ih ⊢
    rw [List.filter_cons]
    by_cases hb : (!(v.id == id)) = true
    · rw [if_pos hb, List.map_cons, List.map_cons, List.filter_cons, if_pos hb, ih]
    · rw [if_neg hb, List.map_cons, List.filter_cons, if_neg hb, ih]

/-- C10: every operation keeps the surviving windows in their original
relative order — the id sequence of the collection is preserved by every
rewrite operation, extended at its end by a fresh open, and filtered
(without reordering) by close. -/
theorem insertion_order_stable (s : EngineState) (w : WindowInit)
    (id : String) (x y width height : Int) :
    ids (openWindow w s).windows =
      (if s.windows.any (fun v => v.id == w.id) then ids s.windows
       else ids s.windows ++ [w.id]) ∧
    ids (closeWindow id s).windows = (ids s.windows).filter (fun a => !(a == id)) ∧
    ids (minimizeWindow id s).windows = ids s.windows ∧
    ids (maximizeWindow id s).windows = ids s.windows ∧
    ids (restoreWindow id s).windows = ids s.windows ∧
    ids (focusWindow id s).windows = ids s.windows ∧
    ids (updateWindowPosition id x y s).windows = ids s.windows ∧
    ids (updateWindowSize id width height s).windows = ids s.windows := by
  refine ⟨?_, ids_filter_ne s.windows id,
    ids_map_of s.windows _ (fun v => by split <;> rfl),
    ids_map_of s.windows _ (fun v => by split <;> rfl),
    ids_map_of s.windows _ (fun v => by split <;> rfl),
    ids_map_of s.windows _ (fun v => by split <;> rfl),
    ids_map_of s.windows _ (fun v => by split <;> rfl),
    ids_map_of s.windows _ (fun v => by split <;> rfl)⟩
  rcases hf : s.windows.find? (fun v => v.id == w.id) with _ | e
  · have hany : s.windows.any (fun v => v.id == w.id) = false := by
      rw [List.any_eq_false]
      exact fun v hv => List.find?_eq_none.mp hf v hv
    rw [openWindow_none w s hf, hany]
    show ids (s.windows.map _ ++ [_]) = _
    rw [ids_append,
      ids_map_of s.windows (fun v => { v with isFocused := false }) (fun v => rfl),
      ids_singleton]
    simp
  · have hany : s.windows.any (fun v => v.id == w.id) = true :=
      List.any_eq_true.mpr ⟨e, List.mem_of_find?_eq_some hf,
        by simpa using List.find?_some hf⟩
    rw [hany]
    cases hm : e.isMinimized with
    | true =>
      rw [openWindow_some_min w s e hf hm]
      exact ids_map_of s.windows _ (fun v => by split <;> rfl)
    | false =>
      rw [openWindow_some_notmin w s e hf hm]
      exact ids_map_of s.windows _ (fun v => by split <;> rfl)

end WindowManager
